import Mathlib

/-!
Verification of the Polar Recorder / LSL Restream heart-rate pipeline.

The Python sources are shallowly embedded over the rationals: every
numeric value handled by the programs is modelled as a `Rat`, a numpy
array as a `List Rat`, and `None` as `Option.none`.  Division by zero,
which numpy turns into `nan` or `inf`, is the rational junk value `0`;
no theorem below depends on a value produced by a division by zero,
only on whether the surrounding code produces a value at all.

Embedded code:
  * `src/main.py` — `detect_heartbeat`, `calculate_bpm`, `is_outlier`,
    and the accept-or-substitute step of the `main` loop;
  * `src/record/hrv_calc.py` — `calculate_pnn50`;
  * `src/record/LSL-Lab.py`, method `analyze_data` — the gap
    segmenter, the per-segment and per-episode RMSSD/SDNN fields, and
    the marked-timestamp episode splitter.
-/

/-! ## Numpy primitives used by the sources -/

/-- Model of `np.diff`: successive differences of a list. -/
def npDiff (l : List ℚ) : List ℚ :=
  List.zipWith (fun a b => b - a) l l.tail

/-- Model of `np.mean`: sum divided by length (junk `0` on `[]`). -/
def npMean (l : List ℚ) : ℚ :=
  l.sum / (l.length : ℚ)

/-- Insertion of an element into a sorted list of rationals. -/
def insertSorted (x : ℚ) : List ℚ → List ℚ
  | [] => [x]
  | y :: ys => if x ≤ y then x :: y :: ys else y :: insertSorted x ys

/-- Ascending insertion sort on rationals. -/
def sortAsc (l : List ℚ) : List ℚ :=
  l.foldr insertSorted []

/-- Model of `np.percentile` with the default linear interpolation:
on the ascending sort `s` of the data, the `q`-th percentile sits at
fractional position `q * (len - 1) / 100` and is interpolated between
the two neighbouring elements (junk `0` on empty data, which the
sources never reach). -/
def npPercentile (q : ℚ) (l : List ℚ) : ℚ :=
  let s := sortAsc l
  if s.isEmpty then 0
  else
    let pos : ℚ := q * ((s.length : ℚ) - 1) / 100
    let i : ℕ := ⌊pos⌋₊
    let lo := s.getD i 0
    let hi := s.getD (i + 1) lo
    lo + (pos - (i : ℚ)) * (hi - lo)

/-- Tukey fence bounds `[Q1 - 1.5 IQR, Q3 + 1.5 IQR]` computed from a
list of intervals, exactly as in `calculate_bpm` and `is_outlier` of
`src/main.py`. -/
def iqrBounds (intervals : List ℚ) : ℚ × ℚ :=
  let q1 := npPercentile 25 intervals
  let q3 := npPercentile 75 intervals
  let iqr := q3 - q1
  (q1 - 3/2 * iqr, q3 + 3/2 * iqr)

/-! ## src/main.py -/

/-- Embedding of `detect_heartbeat` (src/main.py lines 6-19).  The call
`time.time()` is modelled as the explicit argument `current_time`; the
Python indexing `ecg_signal[0]` is `List.headI`. -/
def detect_heartbeat (ecg_signal : List ℚ) (threshold refractory_period : ℚ)
    (last_beat_time current_time : ℚ) : Bool × ℚ :=
  if threshold < ecg_signal.headI ∧ refractory_period < current_time - last_beat_time then
    (true, current_time)
  else
    (false, last_beat_time)

/-- The list comprehension of `calculate_bpm` (src/main.py line 45):
keep the intervals lying inside the Tukey fences of the whole interval
list. -/
def filterOutliers (intervals : List ℚ) : List ℚ :=
  let b := iqrBounds intervals
  intervals.filter (fun x => decide (b.1 ≤ x ∧ x ≤ b.2))

/-- Embedding of `calculate_bpm` (src/main.py lines 22-52). -/
def calculate_bpm (beat_timestamps : List ℚ) : ℚ :=
  if beat_timestamps.length < 2 then 0
  else
    let filtered := filterOutliers (npDiff beat_timestamps)
    if filtered.isEmpty then 0
    else 60 / npMean filtered

/-- Embedding of `is_outlier` (src/main.py lines 55-82).  The Python
indexing `beat_timestamps[-1]` is `List.getLastD`, reached only with
at least 20 entries present. -/
def is_outlier (new_beat_time : ℚ) (beat_timestamps : List ℚ) : Bool :=
  if beat_timestamps.length < 20 then false
  else
    let intervals := npDiff (beat_timestamps ++ [new_beat_time])
    let b := iqrBounds intervals
    let new_interval := new_beat_time - beat_timestamps.getLastD 0
    decide (new_interval < b.1 ∨ b.2 < new_interval)

/-- Embedding of the accept-or-substitute step of the `main` loop
(src/main.py lines 122-136): on an outlier, append the synthetic beat
`beat_timestamps[-1] + mean(diff(beat_timestamps))` when the history
is non-empty; otherwise append the real beat; finally `pop(0)` once if
the history holds more than 20 entries. -/
def accept_or_substitute (new_beat_time : ℚ) (beat_timestamps : List ℚ) : List ℚ :=
  let grown :=
    if is_outlier new_beat_time beat_timestamps then
      if beat_timestamps.isEmpty then beat_timestamps
      else beat_timestamps ++ [beat_timestamps.getLastD 0 + npMean (npDiff beat_timestamps)]
    else beat_timestamps ++ [new_beat_time]
  if 20 < grown.length then grown.drop 1 else grown

/-! ## src/record/hrv_calc.py -/

/-- Embedding of `calculate_pnn50` (src/record/hrv_calc.py lines
22-26): the percentage of successive differences whose absolute value
strictly exceeds 50, over the number of values, or `none` on empty
input. -/
def calculate_pnn50 (rr_intervals : List ℚ) : Option ℚ :=
  let d := npDiff rr_intervals
  let nn50 := (d.filter (fun x => decide ((50:ℚ) < |x|))).length
  if 0 < rr_intervals.length then
    some ((nn50 : ℚ) / (rr_intervals.length : ℚ) * 100)
  else none

/-! ## src/record/LSL-Lab.py, method analyze_data -/

/-- Loop body state of the gap segmenter (LSL-Lab.py lines 2298-2306):
walking the tail of the data with the previous sample at hand, flush
the current segment when the timestamp gap strictly exceeds 10
seconds, then append the current sample to the current segment. -/
def segmentAux (prev : ℚ × ℚ) (segments : List (List (ℚ × ℚ))) (current : List (ℚ × ℚ)) :
    List (ℚ × ℚ) → List (List (ℚ × ℚ)) × List (ℚ × ℚ)
  | [] => (segments, current)
  | x :: rest =>
    if 10 < x.1 - prev.1 then
      if current.isEmpty then segmentAux x segments (current ++ [x]) rest
      else segmentAux x (segments ++ [current]) [x] rest
    else segmentAux x segments (current ++ [x]) rest

/-- Embedding of the segmentation pass of `analyze_data` (LSL-Lab.py
lines 2297-2309).  The Python loop runs `for i in range(1, len(data))`
and appends `data[i]`, so the walk starts from `data[0]` as previous
sample with an empty current segment, and the trailing non-empty
current segment is flushed after the loop. -/
def segmentData (data : List (ℚ × ℚ)) : List (List (ℚ × ℚ)) :=
  match data with
  | [] => []
  | d0 :: rest =>
    let r := segmentAux d0 [] [] rest
    if r.2.isEmpty then r.1 else r.1 ++ [r.2]

/-- Sum of squared deviations from the mean, shared by the numpy
standard deviations. -/
def devSqSum (l : List ℚ) : ℚ :=
  (l.map (fun x => (x - npMean l) ^ 2)).sum

/-- Radicand of `np.std(l)`: population variance, divisor `N`. -/
def npVarPop (l : List ℚ) : ℚ :=
  devSqSum l / (l.length : ℚ)

/-- Radicand of `np.std(l, ddof=1)`: sample variance, divisor `N - 1`
(junk `0` for `N = 1`, where numpy emits `nan`). -/
def npVarSamp (l : List ℚ) : ℚ :=
  devSqSum l / ((l.length : ℚ) - 1)

/-- Model of `np.std(l)`: the real square root of the population
variance.  This is the `std_dev` reported per segment (LSL-Lab.py
line 2324). -/
noncomputable def npStd (l : List ℚ) : ℝ :=
  Real.sqrt ((npVarPop l : ℚ) : ℝ)

/-- Model of `np.std(l, ddof=1)`: the real square root of the sample
variance.  This is the `sdnn` reported per segment and per episode
(LSL-Lab.py lines 2333 and 2371). -/
noncomputable def npStdDdof1 (l : List ℚ) : ℝ :=
  Real.sqrt ((npVarSamp l : ℚ) : ℝ)

/-- Model of `np.sqrt(np.mean(rr_diff ** 2))`, the RMSSD value. -/
noncomputable def npRmssd (values : List ℚ) : ℝ :=
  Real.sqrt ((npMean ((npDiff values).map (fun x => x ^ 2)) : ℚ) : ℝ)

/-- Embedding of the per-segment `rmssd` and `sdnn` fields of
`analyze_data` (LSL-Lab.py lines 2328-2333): both stay `None` off the
RRinterval stream; on it, `rmssd` is `None` when there are no
successive differences, while `sdnn` is computed unconditionally. -/
noncomputable def segRmssdSdnn (isRR : Bool) (values : List ℚ) : Option ℝ × Option ℝ :=
  if isRR then
    ((if 0 < (npDiff values).length then some (npRmssd values) else none),
     some (npStdDdof1 values))
  else (none, none)

/-- Embedding of the per-episode `rmssd_episode` and `sdnn_episode`
fields of `analyze_data` (LSL-Lab.py lines 2366-2371): both stay
`None` unless the stream is RRinterval and the episode holds more than
one value. -/
noncomputable def episodeRmssdSdnn (isRR : Bool) (episode_values : List ℚ) :
    Option ℝ × Option ℝ :=
  if isRR ∧ 1 < episode_values.length then
    ((if 0 < (npDiff episode_values).length then some (npRmssd episode_values) else none),
     some (npStdDdof1 episode_values))
  else (none, none)

/-- Boundary pairs of the marked-timestamp episode loop of
`analyze_data` (LSL-Lab.py lines 2351-2356) on one non-empty segment:
the marks are filtered to the segment time range (inclusive), the
boundary list is `[timestamps[0]] + filtered + [timestamps[-1]]`, and
the loop walks its consecutive pairs. -/
def episodeBoundaries (segment : List (ℚ × ℚ)) (marks : List ℚ) : List (ℚ × ℚ) :=
  match segment with
  | [] => []
  | _ :: _ =>
    let t0 := segment.headI.1
    let tlast := (segment.getLastD (0, 0)).1
    let bs := t0 :: (marks.filter (fun ts => decide (t0 ≤ ts ∧ ts ≤ tlast))) ++ [tlast]
    bs.zip bs.tail

/-- The `episode_values` comprehension of `analyze_data` (LSL-Lab.py
line 2357): values of the segment samples whose timestamp lies in the
boundary pair, inclusive on both ends. -/
def episodeVals (segment : List (ℚ × ℚ)) (p : ℚ × ℚ) : List ℚ :=
  (segment.filter (fun s => decide (p.1 ≤ s.1 ∧ s.1 ≤ p.2))).map Prod.snd

/-- Embedding of the marked-timestamp episode loop of `analyze_data`
(LSL-Lab.py lines 2350-2374), run on one segment: an episode — its
boundary pair together with its member values — is recorded only when
the value list is non-empty (the `if episode_values:` guard).  The
numeric summary the Python code prints per episode is a pure function
of the recorded pair and values. -/
def episodesOf (segment : List (ℚ × ℚ)) (marks : List ℚ) : List ((ℚ × ℚ) × List ℚ) :=
  (episodeBoundaries segment marks).filterMap (fun p =>
    if (episodeVals segment p).isEmpty then none else some (p, episodeVals segment p))

/-- Modelled from the spec, section 4.5: the episode splitter as the
specification words it — one episode per consecutive boundary pair,
member samples inclusive on both ends, with no non-emptiness test.
Kept side by side with `episodesOf` to compare code and spec. -/
def splitSpec (segment : List (ℚ × ℚ)) (marks : List ℚ) : List ((ℚ × ℚ) × List ℚ) :=
  (episodeBoundaries segment marks).map (fun p => (p, episodeVals segment p))

/-- Embedding of the outer guard `if marked_timestamps:` (LSL-Lab.py
line 2349): with an empty mark list the episode loop is skipped and no
episode is produced at all. -/
def episodesReport (segment : List (ℚ × ℚ)) (marks : List ℚ) : List ((ℚ × ℚ) × List ℚ) :=
  if marks.isEmpty then [] else episodesOf segment marks

/-! ## Helper lemmas -/

/-- Inserting an element into a list of copies of itself keeps the
list constant. -/
lemma insertSorted_replicate (c : ℚ) (k : ℕ) :
    insertSorted c (List.replicate k c) = List.replicate (k + 1) c := by
  cases k with
  | zero => rfl
  | succ n => simp [insertSorted, List.replicate_succ]

/-- Sorting a constant list is the identity. -/
lemma sortAsc_replicate (m : ℕ) (c : ℚ) :
    sortAsc (List.replicate m c) = List.replicate m c := by
  induction m with
  | zero => rfl
  | succ n ih =>
    rw [List.replicate_succ]
    show insertSorted c (sortAsc (List.replicate n c)) = _
    rw [ih, insertSorted_replicate, List.replicate_succ]

/-- Reading a constant list with a default. -/
lemma getD_replicate (m i : ℕ) (c d : ℚ) :
    (List.replicate m c).getD i d = if i < m then c else d := by
  induction m generalizing i with
  | zero => simp
  | succ n ih =>
    cases i with
    | zero => simp [List.replicate_succ]
    | succ j =>
      rw [List.replicate_succ, List.getD_cons_succ, ih]
      simp [Nat.succ_lt_succ_iff]

/-- Any percentile of a non-empty constant list is the constant. -/
lemma npPercentile_replicate (q : ℚ) (hq1 : q ≤ 100)
    (m : ℕ) (hm : 1 ≤ m) (c : ℚ) :
    npPercentile q (List.replicate m c) = c := by
  have hm1 : (1 : ℚ) ≤ (m : ℚ) := by exact_mod_cast hm
  have hne : (List.replicate m c).isEmpty = false := by
    cases m with
    | zero => omega
    | succ n => simp [List.replicate_succ]
  have hposle : q * ((m : ℚ) - 1) / 100 ≤ (m : ℚ) - 1 := by
    rw [div_le_iff₀ (by norm_num : (0 : ℚ) < 100)]
    nlinarith
  have hfl : ⌊q * ((m : ℚ) - 1) / 100⌋₊ < m := by
    have h2 : (m : ℚ) - 1 = ((m - 1 : ℕ) : ℚ) := by
      rw [Nat.cast_sub hm]
      norm_num
    have h3 : ⌊q * ((m : ℚ) - 1) / 100⌋₊ ≤ ⌊((m - 1 : ℕ) : ℚ)⌋₊ :=
      Nat.floor_le_floor (h2 ▸ hposle)
    rw [Nat.floor_natCast] at h3
    omega
  simp only [npPercentile, sortAsc_replicate, List.length_replicate, getD_replicate, hne,
    Bool.false_eq_true, if_false]
  rw [if_pos hfl]
  by_cases h4 : ⌊q * ((m : ℚ) - 1) / 100⌋₊ + 1 < m
  · rw [if_pos h4]
    ring
  · rw [if_neg h4]
    ring

/-- The mean of a non-empty constant list is the constant. -/
lemma npMean_replicate (m : ℕ) (hm : 1 ≤ m) (c : ℚ) :
    npMean (List.replicate m c) = c := by
  have hm0 : ((m : ℚ)) ≠ 0 := by
    have : (1 : ℚ) ≤ (m : ℚ) := by exact_mod_cast hm
    linarith
  simp only [npMean, List.sum_replicate, List.length_replicate, nsmul_eq_mul]
  field_simp

/-- Filtering with a predicate that accepts the constant keeps a
constant list whole. -/
lemma filter_replicate_of_true {p : ℚ → Bool} {c : ℚ} (hp : p c = true) (m : ℕ) :
    (List.replicate m c).filter p = List.replicate m c := by
  induction m with
  | zero => rfl
  | succ n ih => simp [List.replicate_succ, List.filter_cons, hp, ih]

/-- The Tukey fences of a non-empty constant interval list degenerate
to the constant itself, so the outlier filter keeps every interval. -/
lemma filterOutliers_replicate (m : ℕ) (hm : 1 ≤ m) (c : ℚ) :
    filterOutliers (List.replicate m c) = List.replicate m c := by
  unfold filterOutliers iqrBounds
  rw [npPercentile_replicate 25 (by norm_num) m hm c,
    npPercentile_replicate 75 (by norm_num) m hm c]
  apply filter_replicate_of_true
  simp

/-! ## Claim theorems -/

/-- Claim C1 (code bug witness).  The segmentation loop of
`analyze_data` runs `for i in range(1, len(data))` and only ever
appends `data[i]`, so the first sample of the series is dropped: on
the sorted two-sample series `[(0,1),(1,2)]` with gap 1 second the
returned segments concatenate to `[(1,2)]`, not to the input, and a
one-sample series yields no segment at all — refuting the claimed
partition invariant. -/
theorem segmentData_drops_first_sample :
    segmentData [(0,1),(1,2)] = [[(1,2)]]
    ∧ (segmentData [(0,1),(1,2)]).flatten ≠ [(0,1),(1,2)]
    ∧ segmentData [(0,1)] = [] := by
  refine ⟨?_, ?_, ?_⟩ <;> norm_num [segmentData, segmentAux]

/-- Claim C2 (counterexample).  On the RR series `[800,900,820,870]`
the diffs are `[100,-80,50]` and the strict test `|diff| > 50` accepts
only two of them, so `calculate_pnn50` does not return 75. -/
theorem calculate_pnn50_example_ne_75 :
    calculate_pnn50 [800, 900, 820, 870] ≠ some 75 := by
  norm_num [calculate_pnn50, npDiff]

/-- Claim C2 (amended).  On the RR series `[800,900,820,870]` exactly
2 of the 3 successive differences exceed 50 in absolute value, so the
pNN50 computation returns exactly `100 * 2 / 4 = 50`. -/
theorem calculate_pnn50_example_eq_50 :
    calculate_pnn50 [800, 900, 820, 870] = some 50 := by
  norm_num [calculate_pnn50, npDiff]

/-- Claim C5.  `detect_heartbeat` declares a beat exactly when the
first sample value strictly exceeds the threshold and the elapsed time
strictly exceeds the refractory period; a sample equal to the
threshold is never a beat; and with no beat the returned last-beat
time is the one passed in. -/
theorem detect_heartbeat_characterization (sig : List ℚ) (thr rp lbt ct : ℚ) :
    ((detect_heartbeat sig thr rp lbt ct).1 = true ↔ thr < sig.headI ∧ rp < ct - lbt)
    ∧ (sig.headI = thr → (detect_heartbeat sig thr rp lbt ct).1 = false)
    ∧ ((detect_heartbeat sig thr rp lbt ct).1 = false →
        (detect_heartbeat sig thr rp lbt ct).2 = lbt) := by
  unfold detect_heartbeat
  by_cases h : thr < sig.headI ∧ rp < ct - lbt
  · rw [if_pos h]
    exact ⟨by simp [h], fun he => absurd h.1 (by rw [he]; exact lt_irrefl thr), by simp⟩
  · rw [if_neg h]
    exact ⟨by simp [h], fun _ => rfl, fun _ => rfl⟩

/-- Claim C5, concrete check: a sample exactly at the threshold is not
a beat, and the last-beat time comes back unchanged. -/
theorem detect_heartbeat_characterization_witness :
    (detect_heartbeat [100] 100 (1/2) 0 10).1 = false
    ∧ (detect_heartbeat [100] 100 (1/2) 0 10).2 = 0 :=
  ⟨(detect_heartbeat_characterization [100] 100 (1/2) 0 10).2.1 rfl,
   (detect_heartbeat_characterization [100] 100 (1/2) 0 10).2.2
     ((detect_heartbeat_characterization [100] 100 (1/2) 0 10).2.1 rfl)⟩

/-- Claim C6.  `calculate_bpm` returns the sentinel 0 on fewer than
two timestamps, and 0 whenever the outlier filter leaves no interval;
being a total function of its input it raises nothing. -/
theorem calculate_bpm_zero_sentinel (l : List ℚ)
    (h : l.length < 2 ∨ filterOutliers (npDiff l) = []) :
    calculate_bpm l = 0 := by
  simp only [calculate_bpm]
  rcases h with h | h
  · rw [if_pos h]
  · by_cases h2 : l.length < 2
    · rw [if_pos h2]
    · rw [if_neg h2]
      simp [h]

/-- Claim C6, concrete check at the one-beat history `[5]`. -/
theorem calculate_bpm_zero_sentinel_witness :
    (([5] : List ℚ).length < 2 ∨ filterOutliers (npDiff [5]) = [])
    ∧ calculate_bpm [5] = 0 :=
  ⟨Or.inl (by norm_num), calculate_bpm_zero_sentinel [5] (Or.inl (by norm_num))⟩

/-- Claim C7.  On any history of at least two timestamps whose
successive differences all equal 0.8 s, all intervals survive the
degenerate Tukey fences and `calculate_bpm` returns exactly
`60 / 0.8 = 75`. -/
theorem calculate_bpm_constant_interval (l : List ℚ) (h2 : 2 ≤ l.length)
    (hd : npDiff l = List.replicate (l.length - 1) (4/5)) :
    calculate_bpm l = 75 := by
  have hm : 1 ≤ l.length - 1 := by omega
  have hne : (List.replicate (l.length - 1) ((4:ℚ)/5)).isEmpty = false := by
    cases h : l.length - 1 with
    | zero => omega
    | succ n => simp [List.replicate_succ]
  simp only [calculate_bpm]
  rw [if_neg (by omega), hd, filterOutliers_replicate _ hm, hne]
  simp only [Bool.false_eq_true, if_false]
  rw [npMean_replicate _ hm]
  norm_num

/-- Claim C7, concrete check on the three timestamps
`[0, 0.8, 1.6]`. -/
theorem calculate_bpm_constant_interval_witness :
    2 ≤ ([0, 4/5, 8/5] : List ℚ).length
    ∧ npDiff [0, 4/5, 8/5] = List.replicate (([0, 4/5, 8/5] : List ℚ).length - 1) (4/5)
    ∧ calculate_bpm [0, 4/5, 8/5] = 75 :=
  ⟨by norm_num, by norm_num [npDiff, List.replicate],
   calculate_bpm_constant_interval [0, 4/5, 8/5] (by norm_num)
     (by norm_num [npDiff, List.replicate])⟩

/-- The difference list is one shorter than its input. -/
lemma npDiff_length (l : List ℚ) : (npDiff l).length = l.length - 1 := by
  simp only [npDiff, List.length_zipWith, List.length_tail]
  omega

/-- A history judged an outlier holds at least 20 entries, because
`is_outlier` answers false below that. -/
lemma length_ge_of_is_outlier {t : ℚ} {h : List ℚ} (ho : is_outlier t h = true) :
    20 ≤ h.length := by
  by_contra hlt
  push_neg at hlt
  unfold is_outlier at ho
  rw [if_pos hlt] at ho
  exact Bool.noConfusion ho

/-- Claim C4.  One accept-or-substitute step always appends exactly
one timestamp — the real beat, or on outlier rejection the synthetic
beat `history[-1] + mean(diff(history))` — and then evicts the oldest
entry when the history exceeds 20 entries; hence from any history of
at most 20 entries the length becomes `min (length + 1) 20` and never
passes 20. -/
theorem accept_or_substitute_step (t : ℚ) (hist : List ℚ) :
    (accept_or_substitute t hist =
      (if 20 < (hist ++ [if is_outlier t hist then
            hist.getLastD 0 + npMean (npDiff hist) else t]).length
       then (hist ++ [if is_outlier t hist then
            hist.getLastD 0 + npMean (npDiff hist) else t]).drop 1
       else hist ++ [if is_outlier t hist then
            hist.getLastD 0 + npMean (npDiff hist) else t]))
    ∧ (hist.length ≤ 20 → (accept_or_substitute t hist).length = min (hist.length + 1) 20)
    ∧ (hist.length ≤ 20 → (accept_or_substitute t hist).length ≤ 20) := by
  have hgrown : (if is_outlier t hist then
        (if hist.isEmpty then hist
         else hist ++ [hist.getLastD 0 + npMean (npDiff hist)])
       else hist ++ [t])
      = hist ++ [if is_outlier t hist then hist.getLastD 0 + npMean (npDiff hist) else t] := by
    cases ho : is_outlier t hist with
    | false => simp
    | true =>
      have h20 := length_ge_of_is_outlier ho
      have hne : hist.isEmpty = false := by
        cases hist with
        | nil => simp at h20
        | cons a l => simp
      simp [hne]
  have heq : accept_or_substitute t hist =
      (if 20 < (hist ++ [if is_outlier t hist then
            hist.getLastD 0 + npMean (npDiff hist) else t]).length
       then (hist ++ [if is_outlier t hist then
            hist.getLastD 0 + npMean (npDiff hist) else t]).drop 1
       else hist ++ [if is_outlier t hist then
            hist.getLastD 0 + npMean (npDiff hist) else t]) := by
    simp only [accept_or_substitute]
    rw [hgrown]
  have hlenA : (hist ++ [if is_outlier t hist then
      hist.getLastD 0 + npMean (npDiff hist) else t]).length = hist.length + 1 := by
    simp
  have hlen : hist.length ≤ 20 →
      (accept_or_substitute t hist).length = min (hist.length + 1) 20 := by
    intro hle
    rw [heq]
    by_cases hgt : 20 < hist.length + 1
    · rw [if_pos (by rw [hlenA]; exact hgt), List.length_drop, hlenA]
      omega
    · rw [if_neg (by rw [hlenA]; exact hgt), hlenA]
      omega
  exact ⟨heq, hlen, fun hle => by rw [hlen hle]; omega⟩

/-- Claim C4, concrete check: a two-entry history grows to three. -/
theorem accept_or_substitute_step_witness :
    ([1, 2] : List ℚ).length ≤ 20
    ∧ (accept_or_substitute 3 [1, 2]).length = min (([1, 2] : List ℚ).length + 1) 20 :=
  ⟨by norm_num, (accept_or_substitute_step 3 [1, 2]).2.1 (by norm_num)⟩

/-- Claim C3 (counterexample).  On a one-value RR segment the
segment-level statistics of `analyze_data` still produce an `sdnn`
value — `np.std(values, ddof=1)` is computed unconditionally for the
RRinterval stream — so `sdnn` is not omitted there. -/
theorem seg_sdnn_present_for_singleton :
    (segRmssdSdnn true [800]).2 ≠ none := by
  simp [segRmssdSdnn]

/-- Claim C3 (amended).  At episode level both `rmssd` and `sdnn` are
omitted for sequences of at most one value and both are produced for
longer ones; at segment level `rmssd` is omitted for at most one value
but `sdnn` is always produced for the RR channel. -/
theorem rmssd_sdnn_presence (isRR : Bool) (values : List ℚ) :
    (values.length ≤ 1 → episodeRmssdSdnn isRR values = (none, none))
    ∧ (isRR = true → 1 < values.length →
        episodeRmssdSdnn isRR values = (some (npRmssd values), some (npStdDdof1 values)))
    ∧ (isRR = true → values.length ≤ 1 →
        (segRmssdSdnn isRR values).1 = none
        ∧ (segRmssdSdnn isRR values).2 = some (npStdDdof1 values)) := by
  refine ⟨?_, ?_, ?_⟩
  · intro hle
    have hcond : ¬((isRR = true) ∧ 1 < values.length) := by
      rintro ⟨-, hgt⟩
      omega
    simp [episodeRmssdSdnn, hcond]
  · intro hRR hgt
    subst hRR
    have h0 : 0 < (npDiff values).length := by
      rw [npDiff_length]
      omega
    simp [episodeRmssdSdnn, hgt, h0]
  · intro hRR hle
    subst hRR
    have h0 : ¬(0 < (npDiff values).length) := by
      rw [npDiff_length]
      omega
    simp [segRmssdSdnn, h0]

/-- Claim C3, concrete checks at a one-value and a two-value RR
series. -/
theorem rmssd_sdnn_presence_witness :
    episodeRmssdSdnn true [800] = (none, none)
    ∧ episodeRmssdSdnn true [800, 900] = (some (npRmssd [800, 900]), some (npStdDdof1 [800, 900]))
    ∧ (segRmssdSdnn true [800]).1 = none
    ∧ (segRmssdSdnn true [800]).2 = some (npStdDdof1 [800]) :=
  ⟨(rmssd_sdnn_presence true [800]).1 (by norm_num),
   (rmssd_sdnn_presence true [800, 900]).2.1 rfl (by norm_num),
   ((rmssd_sdnn_presence true [800]).2.2 rfl (by norm_num)).1,
   ((rmssd_sdnn_presence true [800]).2.2 rfl (by norm_num)).2⟩

/-- The sum of squared deviations is non-negative. -/
lemma devSqSum_nonneg (l : List ℚ) : 0 ≤ devSqSum l := by
  apply List.sum_nonneg
  intro x hx
  obtain ⟨y, -, rfl⟩ := List.mem_map.mp hx
  positivity

/-- Claim C8.  For more than one value, the sample standard deviation
`sdnn` equals the population standard deviation `std_dev` times
`sqrt (N / (N - 1))`: both share the sum of squared deviations, with
divisors `N - 1` and `N`. -/
theorem sdnn_stddev_factor (l : List ℚ) (h : 1 < l.length) :
    npStdDdof1 l = npStd l * Real.sqrt ((l.length : ℝ) / ((l.length : ℝ) - 1)) := by
  have hn : (1 : ℝ) < (l.length : ℝ) := by exact_mod_cast h
  have hn0 : ((l.length : ℝ)) ≠ 0 := by linarith
  have hn1 : ((l.length : ℝ)) - 1 ≠ 0 := by
    have : (0 : ℝ) < (l.length : ℝ) - 1 := by linarith
    linarith
  have hS : (0 : ℝ) ≤ ((devSqSum l : ℚ) : ℝ) := by exact_mod_cast devSqSum_nonneg l
  have hvp : (0 : ℝ) ≤ ((devSqSum l / (l.length : ℚ) : ℚ) : ℝ) := by
    push_cast
    apply div_nonneg hS
    linarith
  unfold npStdDdof1 npStd npVarSamp npVarPop
  rw [show ((devSqSum l / ((l.length : ℚ) - 1) : ℚ) : ℝ)
      = ((devSqSum l / (l.length : ℚ) : ℚ) : ℝ) * ((l.length : ℝ) / ((l.length : ℝ) - 1)) by
    push_cast
    field_simp]
  rw [Real.sqrt_mul hvp]

/-- Claim C8, concrete check on the RR values from the spec
example. -/
theorem sdnn_stddev_factor_witness :
    1 < ([800, 820, 780, 810] : List ℚ).length
    ∧ npStdDdof1 [800, 820, 780, 810]
      = npStd [800, 820, 780, 810]
        * Real.sqrt ((([800, 820, 780, 810] : List ℚ).length : ℝ)
            / ((([800, 820, 780, 810] : List ℚ).length : ℝ) - 1)) :=
  ⟨by norm_num, sdnn_stddev_factor [800, 820, 780, 810] (by norm_num)⟩

/-- Keeping only the entries whose second component is non-empty can
be done before or after building the pairs. -/
lemma filterMap_keep_nonempty {α γ δ : Type} (f : α → γ × List δ) (l : List α) :
    l.filterMap (fun a => if (f a).2.isEmpty then none else some (f a))
      = (l.map f).filter (fun b => !b.2.isEmpty) := by
  induction l with
  | nil => rfl
  | cons a l ih =>
    simp only [List.filterMap_cons, List.map_cons, List.filter_cons]
    cases h : (f a).2.isEmpty <;> simp [h, ih]

/-- Claim C9 (counterexample).  On the gap-free segment with samples
at 0, 10, 20, 30, 40 and the in-range marks `[12, 18]` there are three
consecutive boundary pairs, but the code produces only two episodes:
the pair `(12, 18)` holds no sample and is skipped by the
`if episode_values:` guard. -/
theorem episodesOf_skips_empty_boundary_pair :
    (splitSpec [(0,1),(10,2),(20,3),(30,4),(40,5)] [12,18]).length = 3
    ∧ episodesOf [(0,1),(10,2),(20,3),(30,4),(40,5)] [12,18]
        = [((0,12),[1,2]), ((18,40),[3,4,5])] :=
  ⟨rfl, rfl⟩

/-- Claim C9 (amended).  The episode splitter yields one episode per
consecutive boundary pair that holds at least one sample — it is the
spec splitter of section 4.5 restricted to the pairs with non-empty
member lists — and on a segment with samples at 0, 30, 70 and 100 and
marks `[30, 70]` it yields exactly the three episodes `[0,30]`,
`[30,70]`, `[70,100]`, with the sample on each mark counted in both
adjacent episodes. -/
theorem episodesOf_amended :
    (∀ seg marks, episodesOf seg marks
        = (splitSpec seg marks).filter (fun e => !e.2.isEmpty))
    ∧ episodesOf [(0,1),(30,2),(70,3),(100,4)] [30,70]
        = [((0,30),[1,2]), ((30,70),[2,3]), ((70,100),[3,4])] := by
  constructor
  · intro seg marks
    unfold episodesOf splitSpec
    exact filterMap_keep_nonempty (fun p => (p, episodeVals seg p)) _
  · rfl

/-- The head of a list sorted by first component bounds every member
from below. -/
lemma headI_fst_le_of_pairwise {seg : List (ℚ × ℚ)}
    (hp : seg.Pairwise (fun a b => a.1 ≤ b.1)) :
    ∀ y ∈ seg, seg.headI.1 ≤ y.1 := by
  cases seg with
  | nil =>
    intro y hy
    cases hy
  | cons x xs =>
    intro y hy
    rcases List.mem_cons.mp hy with rfl | hmem
    · exact le_refl _
    · exact (List.pairwise_cons.mp hp).1 y hmem

/-- The last element of a list sorted by first component bounds every
member from above, whatever the default. -/
lemma fst_le_getLastD_of_pairwise :
    ∀ (seg : List (ℚ × ℚ)), seg.Pairwise (fun a b => a.1 ≤ b.1) →
      ∀ y ∈ seg, ∀ d, y.1 ≤ (seg.getLastD d).1 := by
  intro seg
  induction seg with
  | nil =>
    intro _ y hy
    cases hy
  | cons x xs ih =>
    intro hp y hy d
    rw [List.getLastD_cons]
    obtain ⟨hx, hxs⟩ := List.pairwise_cons.mp hp
    rcases List.mem_cons.mp hy with rfl | hmem
    · cases xs with
      | nil => exact le_refl _
      | cons z zs =>
        calc y.1 ≤ z.1 := hx z (List.mem_cons_self z zs)
          _ ≤ ((z :: zs).getLastD y).1 := ih hxs z (List.mem_cons_self z zs) y
    · exact ih hxs y hmem x

/-- Claim C10.  With a non-empty mark list of which no mark falls in
the segment time range, the boundary list degenerates to the first and
last segment timestamps and exactly one episode spanning the whole
segment is produced; with an empty mark list no episode is produced at
all. -/
theorem episodesReport_no_mark_in_range (seg : List (ℚ × ℚ)) (marks : List ℚ)
    (hseg : seg ≠ []) (hmarks : marks ≠ [])
    (hsort : seg.Pairwise (fun a b => a.1 ≤ b.1))
    (hout : ∀ m ∈ marks, ¬(seg.headI.1 ≤ m ∧ m ≤ (seg.getLastD (0, 0)).1)) :
    episodesReport seg marks
      = [((seg.headI.1, (seg.getLastD (0, 0)).1), seg.map Prod.snd)]
    ∧ episodesReport seg [] = [] := by
  refine ⟨?_, rfl⟩
  have hm : marks.isEmpty = false := by
    cases marks with
    | nil => exact absurd rfl hmarks
    | cons a l => rfl
  unfold episodesReport
  rw [hm]
  simp only [Bool.false_eq_true, if_false]
  obtain ⟨x, xs, rfl⟩ : ∃ x xs, seg = x :: xs := by
    cases seg with
    | nil => exact absurd rfl hseg
    | cons x xs => exact ⟨x, xs, rfl⟩
  have hfm : marks.filter (fun ts => decide ((x :: xs).headI.1 ≤ ts
      ∧ ts ≤ ((x :: xs).getLastD (0, 0)).1)) = [] := by
    rw [List.filter_eq_nil_iff]
    intro a ha
    simpa using hout a ha
  have hb : episodeBoundaries (x :: xs) marks
      = [((x :: xs).headI.1, ((x :: xs).getLastD (0, 0)).1)] := by
    simp only [episodeBoundaries]
    rw [hfm]
    rfl
  have hvals : episodeVals (x :: xs)
      ((x :: xs).headI.1, ((x :: xs).getLastD (0, 0)).1) = (x :: xs).map Prod.snd := by
    unfold episodeVals
    congr 1
    apply List.filter_eq_self.mpr
    intro a ha
    simp only [decide_eq_true_eq]
    exact ⟨headI_fst_le_of_pairwise hsort a ha,
      fst_le_getLastD_of_pairwise _ hsort a ha (0, 0)⟩
  unfold episodesOf
  rw [hb, List.filterMap_cons, hvals]
  simp

/-- Claim C10, concrete check: the sorted two-sample segment
`[(0,5),(1,6)]` with the single out-of-range mark 200 yields exactly
one episode spanning the whole segment, and yields none with an empty
mark list. -/
theorem episodesReport_no_mark_in_range_witness :
    episodesReport [(0,5),(1,6)] [200] = [((0,1),[5,6])]
    ∧ episodesReport [(0,5),(1,6)] [] = [] :=
  episodesReport_no_mark_in_range [(0,5),(1,6)] [200] (by decide) (by decide)
    (by decide) (by decide)
